import Mathlib

/-!
# Verification of the chunking and hybrid-retrieval engine

Shallow embedding of the core algorithms of the repository:
token windowing with overlap (`src/parsers/pdf_parser.py`, `split_into_chunks`),
section segmentation (`extract_hierarchical_chunks`), the query-intent
parser, the structural filter, the similarity ranking and the MMR
diversity loop (`src/retriever.py`).

Conventions of the embedding:
* Tokens are natural numbers; the tokenizer (`tiktoken`, an external
  provider, out of scope per the spec) is modelled as a reproducible
  round-trip-exact scheme over characters.
* Python floats are modelled as rationals (`ℚ`): every arithmetic
  operation the claims depend on (comparisons, `1 - x`, `max`,
  Jaccard ratios, the degenerate `λ = 1` combination) is exact.
* The Python `while` loops are embedded with explicit fuel where the
  source can diverge (`split_into_chunks`), and by well-founded
  recursion where each iteration provably consumes one candidate
  (the MMR loop).
-/

/-! ## Token windowing: `split_into_chunks` (src/parsers/pdf_parser.py, lines 22-34)

```python
def split_into_chunks(text, chunk_size=CHUNK_SIZE, overlap=CHUNK_OVERLAP):
    tokens = ENCODING.encode(text)
    chunks = []
    start = 0
    while start < len(tokens):
        end = min(start + chunk_size, len(tokens))
        chunk_tokens = tokens[start:end]
        chunk_text = ENCODING.decode(chunk_tokens)
        chunks.append(chunk_text)
        if end == len(tokens):
            break
        start += chunk_size - overlap
    return chunks
```

The loop is embedded at the level of token lists with explicit fuel:
`none` means the fuel ran out before the loop finished, so the loop is
non-terminating exactly when every fuel yields `none`.  When
`chunk_size ≤ overlap` the Python step `chunk_size - overlap` is ≤ 0 and
`start` never advances past the first window; the truncated natural
subtraction used here makes the step 0, which is observationally the
same non-advancing loop. -/

/-- One window per fuel step: `start` is the loop variable. -/
def splitGo (tokens : List Nat) (chunk_size overlap : Nat) :
    Nat → Nat → Option (List (List Nat))
  | _, 0 => none
  | start, fuel + 1 =>
    if start < tokens.length then
      let e := min (start + chunk_size) tokens.length
      let chunk_tokens := (tokens.drop start).take (e - start)
      if e = tokens.length then
        some [chunk_tokens]
      else
        match splitGo tokens chunk_size overlap (start + (chunk_size - overlap)) fuel with
        | none => none
        | some rest => some (chunk_tokens :: rest)
    else
      some []

/-- Function `split_into_chunks`, token level.  In a terminating run every loop
iteration increases `start` by at least one while `start < len(tokens)`
holds, so `tokens.length + 1` fuel is always enough; a `none` result
means the source loop does not terminate. -/
def split_into_chunks (tokens : List Nat) (chunk_size overlap : Nat) :
    Option (List (List Nat)) :=
  splitGo tokens chunk_size overlap 0 (tokens.length + 1)

/-- Reassembly used by the coverage property: the first
`step = chunk_size - overlap` tokens of every chunk, the last chunk
taken whole. -/
def reconstruct (step : Nat) : List (List Nat) → List Nat
  | [] => []
  | [c] => c
  | c :: rest => c.take step ++ reconstruct step rest

/-- Core lemma about the windowing loop under a valid configuration
(`overlap < chunk_size`): with enough fuel the loop terminates, the
emitted windows reassemble the suffix of the token list the loop was
started on, the last window is a suffix of the whole list, and at least
one window is emitted when the loop is entered. -/
theorem splitGo_spec (tokens : List Nat) (chunk_size overlap : Nat)
    (hov : overlap < chunk_size) :
    ∀ fuel start, tokens.length - start < fuel →
      ∃ cks, splitGo tokens chunk_size overlap start fuel = some cks ∧
        reconstruct (chunk_size - overlap) cks = tokens.drop start ∧
        (∀ c, cks.getLast? = some c → c <:+ tokens) ∧
        (start < tokens.length → cks ≠ []) := by
  intro fuel
  induction fuel with
  | zero => intro start h; omega
  | succ f ih =>
    intro start h
    by_cases hs : start < tokens.length
    · by_cases he : min (start + chunk_size) tokens.length = tokens.length
      · have hlen : tokens.length - start ≤
            min (start + chunk_size) tokens.length - start := by omega
        have htk : (tokens.drop start).take
            (min (start + chunk_size) tokens.length - start) = tokens.drop start :=
          List.take_of_length_le (by simpa using hlen)
        refine ⟨[(tokens.drop start).take (min (start + chunk_size) tokens.length - start)],
          ?_, ?_, ?_, ?_⟩
        · simp [splitGo, hs, he]
        · simp [reconstruct, htk]
        · intro c hc
          simp only [List.getLast?_singleton, Option.some.injEq] at hc
          rw [← hc, htk]
          exact List.drop_suffix start tokens
        · intro _; simp
      · have hlt : start + chunk_size < tokens.length := by omega
        have hstep : 1 ≤ chunk_size - overlap := by omega
        have hrec : tokens.length - (start + (chunk_size - overlap)) < f := by omega
        obtain ⟨cks, hcks, hrecon, hsuf, hne⟩ := ih (start + (chunk_size - overlap)) hrec
        have hcne : cks ≠ [] := hne (by omega)
        refine ⟨(tokens.drop start).take (min (start + chunk_size) tokens.length - start)
            :: cks, ?_, ?_, ?_, ?_⟩
        · simp [splitGo, hs, he, hcks]
        · obtain ⟨c0, cs0, rfl⟩ := List.exists_cons_of_ne_nil hcne
          show _ ++ reconstruct _ _ = _
          rw [hrecon]
          have h1 : min (start + chunk_size) tokens.length - start = chunk_size := by omega
          rw [h1, List.take_take, min_eq_left (Nat.sub_le _ _)]
          rw [← List.drop_drop (chunk_size - overlap) start tokens]
          exact List.take_append_drop _ _
        · intro c hc
          obtain ⟨c0, cs0, rfl⟩ := List.exists_cons_of_ne_nil hcne
          exact hsuf c (by simpa using hc)
        · intro _; simp
    · have hle : tokens.length ≤ start := by omega
      refine ⟨[], by simp [splitGo, hs], ?_, by simp, fun hc => absurd hc hs⟩
      simp [reconstruct, List.drop_eq_nil_of_le hle]

/-- Helper for the 360-token scenario: unfolding the windowing loop twice.
With 360 tokens, `chunk_size = 350`, `overlap = 20` the loop emits the
window `[0, 350)` and then the window `[330, 360)` and stops. -/
theorem splitGo_360_unfold (tokens : List Nat) (h : tokens.length = 360) (f : Nat) :
    splitGo tokens 350 20 0 (f + 1 + 1) =
      some [tokens.take 350, tokens.drop 330] := by
  simp only [splitGo, h]
  norm_num
  omega

/-- C2: the spec requires `split_into_chunks` to fail fast with a
configuration error when `overlap ≥ chunk_size`.  The code has no such
guard: whenever the text has more than `chunk_size` tokens the loop's
step `chunk_size - overlap` does not advance `start`, the window end
never reaches `len(tokens)`, and the loop runs forever — no amount of
fuel produces a result.  This contradicts the spec's explicit
requirement ("must fail, not loop"), so the code is the bug. -/
theorem split_into_chunks_invalid_config_diverges
    (tokens : List Nat) (chunk_size overlap : Nat)
    (hbad : chunk_size ≤ overlap) (hlen : chunk_size < tokens.length) :
    (∀ fuel, splitGo tokens chunk_size overlap 0 fuel = none) ∧
      split_into_chunks tokens chunk_size overlap = none := by
  have hall : ∀ fuel, splitGo tokens chunk_size overlap 0 fuel = none := by
    intro fuel
    induction fuel with
    | zero => rfl
    | succ f ih =>
      have h0 : 0 < tokens.length := by omega
      have hmin : min (0 + chunk_size) tokens.length = chunk_size := by omega
      have hne : ¬ (chunk_size = tokens.length) := by omega
      have hstep : chunk_size - overlap = 0 := by omega
      simp [splitGo, h0, hmin, hne, hstep, ih]
      omega
  exact ⟨hall, hall _⟩

/-- Witness for C2 at the spec's failing configuration: a 21-token text
with `chunk_size = 20 = overlap` yields no result at any fuel — the
source loop does not terminate (instead of raising a configuration
error). -/
theorem split_into_chunks_invalid_config_diverges_witness :
    split_into_chunks (List.range 21) 20 20 = none ∧
      splitGo (List.range 21) 20 20 0 1000 = none :=
  ⟨(split_into_chunks_invalid_config_diverges (List.range 21) 20 20
      (by decide) (by decide)).2,
    (split_into_chunks_invalid_config_diverges (List.range 21) 20 20
      (by decide) (by decide)).1 1000⟩

/-- C3, counterexample: on a 360-token sequence with `chunk_size = 350`
and `overlap = 20` the code produces two chunks of lengths 350 and 30 —
the second chunk covers tokens 330–360 and therefore has length 30, not
length 10 as the claim states. -/
theorem split_360_chunk_lengths_cex :
    ((split_into_chunks (List.range 360) 350 20).getD []).map List.length
        = [350, 30] ∧
      ((split_into_chunks (List.range 360) 350 20).getD []).map List.length
        ≠ [350, 10] := by
  have h : split_into_chunks (List.range 360) 350 20
      = some [(List.range 360).take 350, (List.range 360).drop 330] := by
    show splitGo _ 350 20 0 ((List.range 360).length + 1) = _
    rw [show (List.range 360).length + 1 = 359 + 1 + 1 by simp]
    exact splitGo_360_unfold _ (by simp) 359
  rw [h]
  constructor
  · simp
  · simp

/-- C3, amended: for any token sequence of length 360, `chunk_size = 350`
and `overlap = 20` produce exactly 2 chunks — the first covering tokens
`[0, 350)`, the second of length **30** covering tokens 330–360, so the
two chunks overlap on tokens 330–349 (the second chunk's first 20
tokens equal the first chunk's last 20 tokens). -/
theorem split_360_two_chunks (tokens : List Nat) (h : tokens.length = 360) :
    split_into_chunks tokens 350 20 = some [tokens.take 350, tokens.drop 330] ∧
      (tokens.drop 330).length = 30 ∧
      (tokens.drop 330).take 20 = (tokens.take 350).drop 330 := by
  refine ⟨?_, by simp [h], ?_⟩
  · show splitGo tokens 350 20 0 (tokens.length + 1) = _
    rw [show tokens.length + 1 = 359 + 1 + 1 by omega]
    exact splitGo_360_unfold tokens h 359
  · rw [List.drop_take]

/-- Witness for C3's amended statement at the concrete token sequence
`0, 1, …, 359`. -/
theorem split_360_two_chunks_witness :
    split_into_chunks (List.range 360) 350 20
        = some [(List.range 360).take 350, (List.range 360).drop 330] ∧
      ((List.range 360).drop 330).length = 30 ∧
      ((List.range 360).drop 330).take 20 = ((List.range 360).take 350).drop 330 :=
  split_360_two_chunks (List.range 360) (by simp)

/-- C4: for every token sequence and every valid configuration
(`overlap < chunk_size`), the windowing terminates and covers the
sequence exactly: concatenating the first `chunk_size - overlap` tokens
of each chunk (the last chunk taken whole) reconstructs the token
sequence, and the final window is a suffix of the sequence (it ends at
`N`; no trailing tokens are dropped).  Stated at the token level: the
spec's tokenization is round-trip exact, so decoding each chunk and
re-tokenizing the concatenation is the identity on these slices. -/
theorem split_into_chunks_coverage (tokens : List Nat) (chunk_size overlap : Nat)
    (hov : overlap < chunk_size) :
    ∃ cks, split_into_chunks tokens chunk_size overlap = some cks ∧
      reconstruct (chunk_size - overlap) cks = tokens ∧
      ∀ c, cks.getLast? = some c → c <:+ tokens := by
  obtain ⟨cks, h1, h2, h3, _⟩ :=
    splitGo_spec tokens chunk_size overlap hov (tokens.length + 1) 0 (by omega)
  exact ⟨cks, h1, by simpa using h2, h3⟩

/-- Witness for C4 on the token sequence `[0,1,2,3,4]` with
`chunk_size = 3`, `overlap = 1`. -/
theorem split_into_chunks_coverage_witness :
    ∃ cks, split_into_chunks [0, 1, 2, 3, 4] 3 1 = some cks ∧
      reconstruct (3 - 1) cks = [0, 1, 2, 3, 4] ∧
      ∀ c, cks.getLast? = some c → c <:+ [0, 1, 2, 3, 4] :=
  split_into_chunks_coverage [0, 1, 2, 3, 4] 3 1 (by decide)

/-! ## Section segmentation: `extract_hierarchical_chunks`
(src/parsers/pdf_parser.py, lines 37-89)

The PDF text extraction (PyMuPDF) is an external page/line source, so
the segmenter is modelled over the ordered `(page_index, line)` stream
it produces (spec §4.1's input contract).  The two header regexes are
modelled character by character; greedy `\d+` with backtracking
coincides with maximal munch, because shortening a digit run only ever
exposes another digit where a non-digit is required. -/

/-- Python `int` of a nonempty digit string. -/
def digitsToNat (ds : List Char) : Nat :=
  ds.foldl (fun acc c => 10 * acc + (c.toNat - '0'.toNat)) 0

/-- Consume a literal from the front of a character list (the anchored
literal part of a `re.match`). -/
def dropLiteral : List Char → List Char → Option (List Char)
  | [], l => some l
  | _ :: _, [] => none
  | c :: cs, x :: xs => if c = x then dropLiteral cs xs else none

/-- Model of `re.match(r"^CHAPTER (\d+)", s)` (line 10): the literal
`"CHAPTER "` followed by a nonempty maximal digit run; `re.match` only
anchors at the start, trailing text is ignored.  Returns
`int(m.group(1))`. -/
def chapterHeaderMatch (s : String) : Option Nat :=
  match dropLiteral "CHAPTER ".data s.data with
  | none => none
  | some rest =>
    let ds := rest.takeWhile Char.isDigit
    if ds = [] then none else some (digitsToNat ds)

/-- Model of `re.match(r"^(\d+\.\d+) (.+)", s)` (line 9): digit run,
dot, digit run, space, then one or more non-newline characters
(`.` does not match a newline).  Returns `(m.group(1), m.group(2))`. -/
def sectionHeaderMatch (s : String) : Option (String × String) :=
  let l := s.data
  let d1 := l.takeWhile Char.isDigit
  if d1 = [] then none else
  match l.drop d1.length with
  | '.' :: r2 =>
    let d2 := r2.takeWhile Char.isDigit
    if d2 = [] then none else
    match r2.drop d2.length with
    | ' ' :: r3 =>
      let g2 := r3.takeWhile (fun c => c ≠ '\n')
      if g2 = [] then none else
      some (⟨d1 ++ '.' :: d2⟩, ⟨g2⟩)
    | _ => none
  | _ => none

/-- Python `str.strip()`: remove leading and trailing whitespace. -/
def pyStrip (s : String) : String :=
  ⟨((s.data.dropWhile Char.isWhitespace).reverse.dropWhile Char.isWhitespace).reverse⟩

/-- The section record built by the scan (lines 59-66).  The Python
dict key `'section'` is called `sec` here (`section` is a Lean
keyword). -/
structure Section where
  chapter : Option Nat
  sec : String
  title : String
  text : String
  start_page : Nat
  end_page : Nat
deriving DecidableEq

/-- Scan state of the segmentation loop (lines 39-41): the sticky
current chapter, the currently open section and the closed sections. -/
structure SegState where
  current_chapter : Option Nat
  current_section : Option Section
  sections : List Section
deriving DecidableEq

/-- One line of the scan (lines 47-69): a chapter match updates the
sticky chapter; a section match closes the open section (its
`end_page` becomes the current page index) and opens a new one
(`start_page` 1-indexed); every line is then appended,
newline-terminated, to the open section's text (the header line lands
in the section it just opened). -/
def processLine (page_num : Nat) (line : String) (st : SegState) : SegState :=
  let stripped := pyStrip line
  let st1 :=
    match chapterHeaderMatch stripped with
    | some c => { st with current_chapter := some c }
    | none => st
  let st2 : SegState :=
    match sectionHeaderMatch stripped with
    | some (num, title) =>
      let closed :=
        match st1.current_section with
        | some cur => st1.sections ++ [{ cur with end_page := page_num }]
        | none => st1.sections
      { current_chapter := st1.current_chapter
        current_section := some
          { chapter := st1.current_chapter, sec := num, title := title,
            text := "", start_page := page_num + 1, end_page := page_num + 1 }
        sections := closed }
    | none => st1
  match st2.current_section with
  | some cur =>
    { st2 with current_section := some { cur with text := cur.text ++ line ++ "\n" } }
  | none => st2

/-- The segmentation pass (lines 43-72) over the `(page_index, line)`
stream; at end of input the open section, if any, is appended without
further mutation. -/
def extract_sections (linesPages : List (Nat × String)) : List Section :=
  let st := linesPages.foldl (fun st pl => processLine pl.1 pl.2 st)
    { current_chapter := none, current_section := none, sections := [] }
  st.sections ++ (match st.current_section with | some cur => [cur] | none => [])

/-- C5: on the five-line page-0 input the segmenter produces exactly
two sections in document order — chapter 1, section `"1.1"`, title
`"Intro"`, text containing `"hello"`, closed with `end_page` equal to
the page index (0) on which the `"1.2"` header appears; then chapter 1,
section `"1.2"`, title `"Next"`, text containing `"world"` — the sticky
chapter value 1 persisting across both sections. -/
theorem extract_sections_example :
    extract_sections
        [(0, "CHAPTER 1"), (0, "1.1 Intro"), (0, "hello"), (0, "1.2 Next"), (0, "world")]
      = [{ chapter := some 1, sec := "1.1", title := "Intro",
           text := "1.1 Intro\nhello\n", start_page := 1, end_page := 0 },
         { chapter := some 1, sec := "1.2", title := "Next",
           text := "1.2 Next\nworld\n", start_page := 1, end_page := 1 }] ∧
      "hello".data <:+: "1.1 Intro\nhello\n".data ∧
      "world".data <:+: "1.2 Next\nworld\n".data := by
  refine ⟨by decide, by decide, by decide⟩

/-! ## Leaf chunks (src/parsers/pdf_parser.py, lines 74-89) -/

/-- Modelled from the spec: the tokenizer `ENCODING` (tiktoken's
`cl100k_base`, line 13) is an external provider, not code of this
repository; spec §3 only requires "a fixed, reproducible tokenization
scheme" whose text↔token mapping is round-trip exact.  It is modelled
as the simplest such scheme: one token per character, the token being
the character's code point. -/
def ENCODING_encode (s : String) : List Nat := s.data.map Char.toNat

/-- Modelled from the spec: the inverse decoding of `ENCODING_encode`
(round-trip exact on encoded sequences). -/
def ENCODING_decode (ts : List Nat) : String := ⟨ts.map Char.ofNat⟩

/-- The leaf-chunk record (lines 80-88); the Python dict key
`'section'` is called `sec` here (`section` is a Lean keyword). -/
structure Chunk where
  chapter : Option Nat
  sec : String
  title : String
  chunk_index : Nat
  text : String
  start_page : Nat
  end_page : Nat
deriving DecidableEq

/-- The chunks emitted for one section (lines 76-88): windowing of the
section's text with the module defaults `CHUNK_SIZE = 350`,
`CHUNK_OVERLAP = 20` (lines 14-15), indexed by `enumerate`.  The
`none` branch of the fueled loop is unreachable because `20 < 350`
(`section_chunks_total`). -/
def section_chunks (s : Section) : List Chunk :=
  match split_into_chunks (ENCODING_encode s.text) 350 20 with
  | none => []
  | some cks =>
    cks.enum.map fun ic =>
      { chapter := s.chapter, sec := s.sec, title := s.title,
        chunk_index := ic.1, text := ENCODING_decode ic.2,
        start_page := s.start_page, end_page := s.end_page }

/-- With the default configuration the windowing loop always
terminates: the `none` branch of `section_chunks` is dead code. -/
theorem section_chunks_total (s : Section) :
    ∃ cks, split_into_chunks (ENCODING_encode s.text) 350 20 = some cks := by
  obtain ⟨cks, h, -, -, -⟩ := splitGo_spec (ENCODING_encode s.text) 350 20 (by omega)
    ((ENCODING_encode s.text).length + 1) 0 (by omega)
  exact ⟨cks, h⟩

/-- Function `extract_hierarchical_chunks` (lines 37-89): segmentation followed
by per-section windowing, emitting the chunks of each section in
document order. -/
def extract_hierarchical_chunks (linesPages : List (Nat × String)) : List Chunk :=
  ((extract_sections linesPages).map section_chunks).flatten

/-- C6: the chunk list of `extract_hierarchical_chunks` is the
concatenation, in document order, of each section's chunk list, and
within one section's chunk list every chunk carries the section's
chapter/section/title/start_page/end_page unchanged while the
`chunk_index` values are exactly `0, 1, 2, …` in emission order
(contiguous and gap-free). -/
theorem extract_chunks_section_invariants (linesPages : List (Nat × String)) :
    extract_hierarchical_chunks linesPages
        = ((extract_sections linesPages).map section_chunks).flatten ∧
      ∀ s : Section,
        (section_chunks s).map Chunk.chunk_index = List.range (section_chunks s).length ∧
        ∀ c ∈ section_chunks s, c.chapter = s.chapter ∧ c.sec = s.sec ∧
          c.title = s.title ∧ c.start_page = s.start_page ∧ c.end_page = s.end_page := by
  refine ⟨rfl, fun s => ⟨?_, ?_⟩⟩
  · cases hsp : split_into_chunks (ENCODING_encode s.text) 350 20 with
    | none => simp [section_chunks, hsp]
    | some cks =>
      simp only [section_chunks, hsp, List.map_map, List.length_map]
      have : (Chunk.chunk_index ∘ fun ic : Nat × List Nat =>
          ({ chapter := s.chapter, sec := s.sec, title := s.title,
             chunk_index := ic.1, text := ENCODING_decode ic.2,
             start_page := s.start_page, end_page := s.end_page } : Chunk))
          = Prod.fst := by
        funext ic; rfl
      rw [this, List.enum_map_fst, List.enum_length]
  · intro c hc
    cases hsp : split_into_chunks (ENCODING_encode s.text) 350 20 with
    | none => simp [section_chunks, hsp] at hc
    | some cks =>
      simp only [section_chunks, hsp, List.mem_map] at hc
      obtain ⟨ic, -, rfl⟩ := hc
      exact ⟨rfl, rfl, rfl, rfl, rfl⟩

/-- Witness for C6 at a concrete section: the single emitted chunk
keeps the section's metadata. -/
theorem extract_chunks_section_invariants_witness :
    ({ chapter := some 1, sec := "1.1", title := "T", chunk_index := 0,
       text := "ab", start_page := 1, end_page := 2 } : Chunk).chapter
        = (some 1 : Option Nat) ∧
      ({ chapter := some 1, sec := "1.1", title := "T", chunk_index := 0,
         text := "ab", start_page := 1, end_page := 2 } : Chunk).sec = "1.1" ∧
      ({ chapter := some 1, sec := "1.1", title := "T", chunk_index := 0,
         text := "ab", start_page := 1, end_page := 2 } : Chunk).title = "T" ∧
      ({ chapter := some 1, sec := "1.1", title := "T", chunk_index := 0,
         text := "ab", start_page := 1, end_page := 2 } : Chunk).start_page = 1 ∧
      ({ chapter := some 1, sec := "1.1", title := "T", chunk_index := 0,
         text := "ab", start_page := 1, end_page := 2 } : Chunk).end_page = 2 :=
  ((extract_chunks_section_invariants []).2
      { chapter := some 1, sec := "1.1", title := "T", text := "ab",
        start_page := 1, end_page := 2 }).2
    { chapter := some 1, sec := "1.1", title := "T", chunk_index := 0,
      text := "ab", start_page := 1, end_page := 2 }
    (by decide)

/-! ## Query-intent parsing: `_parse_metadata_query`
(src/retriever.py, lines 47-64)

```python
query_lower = query.lower()
section_match = re.search(r'(?:section\s*)?(\d+\.\d+)', query_lower)
if section_match:
    return {"section": section_match.group(1)}
chapter_match = re.search(r'chapter\s*(\d+)', query_lower)
if chapter_match:
    return {"chapter": int(chapter_match.group(1))}
return None
```

`re.search` is modelled as a left-to-right scan trying an anchored
match at every position; inside a position, greedy `\d+` and `\s*`
coincide with maximal munch because digits and whitespace are disjoint
character classes, so shortening a greedy run can never expose the
character the next atom requires. -/

/-- Anchored match of `(\d+\.\d+)`: nonempty digit run, `.`, nonempty
digit run; the capture is the matched text. -/
def matchDigitsDotDigits (l : List Char) : Option String :=
  let d1 := l.takeWhile Char.isDigit
  if d1 = [] then none else
  match l.drop d1.length with
  | '.' :: r2 =>
    let d2 := r2.takeWhile Char.isDigit
    if d2 = [] then none else some ⟨d1 ++ '.' :: d2⟩
  | _ => none

/-- Anchored match of `(?:section\s*)?(\d+\.\d+)` at one position: the
optional `section` keyword with optional following whitespace is tried
first (greedy `?`), then the bare number pattern. -/
def matchSectionAt (l : List Char) : Option String :=
  match dropLiteral "section".data l with
  | some rest =>
    match matchDigitsDotDigits (rest.dropWhile Char.isWhitespace) with
    | some g => some g
    | none => matchDigitsDotDigits l
  | none => matchDigitsDotDigits l

/-- Model of `re.search` of the section pattern: leftmost position wins. -/
def searchSectionRef : List Char → Option String
  | [] => none
  | c :: cs =>
    match matchSectionAt (c :: cs) with
    | some g => some g
    | none => searchSectionRef cs

/-- Anchored match of `chapter\s*(\d+)` at one position: the literal
`chapter`, any amount of whitespace (including none), then a nonempty
digit run, returned as Python `int`. -/
def matchChapterAt (l : List Char) : Option Nat :=
  match dropLiteral "chapter".data l with
  | none => none
  | some rest =>
    let ds := (rest.dropWhile Char.isWhitespace).takeWhile Char.isDigit
    if ds = [] then none else some (digitsToNat ds)

/-- Model of `re.search` of the chapter pattern: leftmost position wins. -/
def searchChapterRef : List Char → Option Nat
  | [] => none
  | c :: cs =>
    match matchChapterAt (c :: cs) with
    | some n => some n
    | none => searchChapterRef cs

/-- Python `str.lower()`, modelled per character (adequate for the
ASCII queries and keywords involved here). -/
def pyLower (s : String) : String := ⟨s.data.map Char.toLower⟩

/-- The optional structural filter derived from a query (spec §3
QueryFilter). -/
inductive QueryFilter where
  | sec (value : String)
  | chapter (value : Nat)
deriving DecidableEq

/-- Function `_parse_metadata_query` (lines 47-64): lower-case the query, try
the section pattern first, then the chapter pattern. -/
def parse_metadata_query (query : String) : Option QueryFilter :=
  let query_lower := pyLower query
  match searchSectionRef query_lower.data with
  | some g => some (QueryFilter.sec g)
  | none =>
    match searchChapterRef query_lower.data with
    | some n => some (QueryFilter.chapter n)
    | none => none

/-- C7: the section-pattern check takes priority over the
chapter-pattern check — any query whose lowered text matches the
section pattern yields a Section filter, whatever else it contains —
and on the spec's three examples: "What is section 1.2 about?" yields
Section "1.2", "Tell me about chapter 4" yields Chapter 4, "Explain
significant figures" yields no filter. -/
theorem parse_metadata_query_priority_and_examples :
    (∀ query g, searchSectionRef (pyLower query).data = some g →
        parse_metadata_query query = some (QueryFilter.sec g)) ∧
      parse_metadata_query "What is section 1.2 about?"
        = some (QueryFilter.sec "1.2") ∧
      parse_metadata_query "Tell me about chapter 4"
        = some (QueryFilter.chapter 4) ∧
      parse_metadata_query "Explain significant figures" = none := by
  refine ⟨fun query g h => ?_, by decide, by decide, by decide⟩
  simp only [parse_metadata_query, h]

/-- Witness for C7's priority conjunct on a query matching both
patterns: the Section filter wins. -/
theorem parse_metadata_query_priority_witness :
    parse_metadata_query "chapter 4 section 1.2"
      = some (QueryFilter.sec "1.2") :=
  (parse_metadata_query_priority_and_examples).1
    "chapter 4 section 1.2" "1.2" (by decide)

/-- A digit character is never a whitespace character, so the greedy
`\s*` between the `chapter` keyword and `\d+` can match the empty
string. -/
theorem digit_not_whitespace (c : Char) (h : c.isDigit = true) :
    c.isWhitespace = false := by
  cases hw : c.isWhitespace with
  | false => rfl
  | true =>
    exfalso
    have hcases : c = ' ' ∨ c = '\t' ∨ c = '\r' ∨ c = '\n' := by
      simpa [Char.isWhitespace, or_assoc] using hw
    rcases hcases with rfl | rfl | rfl | rfl <;> exact absurd h (by decide)

/-- Consuming a literal that is literally there succeeds with the
remainder. -/
theorem dropLiteral_append (lit l : List Char) :
    dropLiteral lit (lit ++ l) = some l := by
  induction lit with
  | nil => rfl
  | cons c cs ih => simp [dropLiteral, ih]

/-- Taking while `p` over `l1 ++ l2` yields `l1` whole when every
element of `l1` satisfies `p` and `l2` contributes nothing. -/
theorem takeWhile_all_append (p : Char → Bool) (l1 l2 : List Char)
    (h1 : ∀ c ∈ l1, p c = true) (h2 : l2.takeWhile p = []) :
    (l1 ++ l2).takeWhile p = l1 := by
  induction l1 with
  | nil => simpa using h2
  | cons c cs ih =>
    have hc : p c = true := h1 c (by simp)
    simp only [List.cons_append, List.takeWhile_cons, hc, if_true]
    rw [ih (fun d hd => h1 d (by simp [hd]))]

/-- The anchored chapter matcher at the occurrence: literal `chapter`,
zero whitespace, then the maximal digit run `ds`. -/
theorem matchChapterAt_at_digits (ds s2 : List Char) (hne : ds ≠ [])
    (hdig : ∀ c ∈ ds, c.isDigit = true)
    (hmax : ∀ d, s2.head? = some d → d.isDigit = false) :
    matchChapterAt ("chapter".data ++ (ds ++ s2)) = some (digitsToNat ds) := by
  obtain ⟨d0, ds', rfl⟩ := List.exists_cons_of_ne_nil hne
  have hd0 : d0.isWhitespace = false := digit_not_whitespace d0 (hdig d0 (by simp))
  have htw : ((d0 :: ds') ++ s2).takeWhile Char.isDigit = d0 :: ds' := by
    apply takeWhile_all_append _ _ _ hdig
    cases s2 with
    | nil => rfl
    | cons d s2' => simp [List.takeWhile_cons, hmax d rfl]
  have hdw : List.dropWhile Char.isWhitespace ((d0 :: ds') ++ s2)
      = (d0 :: ds') ++ s2 := by
    rw [List.cons_append, List.dropWhile_cons, hd0]
    simp
  have h1 : dropLiteral "chapter".data ("chapter".data ++ ((d0 :: ds') ++ s2))
      = some ((d0 :: ds') ++ s2) := dropLiteral_append _ _
  unfold matchChapterAt
  rw [h1]
  simp only [hdw, htw]
  simp

/-- The left-to-right scan reaches the first matching position. -/
theorem searchChapterRef_append (s1 rest : List Char) (v : Nat)
    (hfirst : ∀ p, p < s1.length → matchChapterAt ((s1 ++ rest).drop p) = none)
    (hmatch : matchChapterAt rest = some v) :
    searchChapterRef (s1 ++ rest) = some v := by
  induction s1 with
  | nil =>
    cases rest with
    | nil =>
      rw [show matchChapterAt ([] : List Char) = none from rfl] at hmatch
      exact Option.noConfusion hmatch
    | cons c cs =>
      simp only [List.nil_append, searchChapterRef, List.append_eq, hmatch]
  | cons a s1' ih =>
    have h0 : matchChapterAt (a :: (s1' ++ rest)) = none := by
      have := hfirst 0 (by simp)
      simpa using this
    simp only [List.cons_append, searchChapterRef, List.append_eq, h0]
    exact ih (fun p hp => by simpa using hfirst (p + 1) (by simpa using hp))

/-- C10: whitespace between the `chapter` keyword and the number is not
required (the pattern uses `\s*`): for every query whose lowered text
contains no section pattern and decomposes as
`s1 ++ "chapter" ++ ds ++ s2` with `ds` a nonempty maximal digit run
immediately after the keyword, and with no chapter-pattern match
starting inside `s1`, the parser returns a Chapter filter with `ds`
read as an integer. -/
theorem parse_chapter_without_whitespace
    (query : String) (s1 ds s2 : List Char)
    (hdec : (pyLower query).data = s1 ++ ("chapter".data ++ (ds ++ s2)))
    (hne : ds ≠ []) (hdig : ∀ c ∈ ds, c.isDigit = true)
    (hmax : ∀ d, s2.head? = some d → d.isDigit = false)
    (hsec : searchSectionRef (pyLower query).data = none)
    (hfirst : ∀ p, p < s1.length →
        matchChapterAt (((pyLower query).data).drop p) = none) :
    parse_metadata_query query = some (QueryFilter.chapter (digitsToNat ds)) := by
  have hch : searchChapterRef (pyLower query).data = some (digitsToNat ds) := by
    rw [hdec]
    exact searchChapterRef_append s1 _ _
      (fun p hp => by rw [← hdec]; exact hfirst p hp)
      (matchChapterAt_at_digits ds s2 hne hdig hmax)
  simp only [parse_metadata_query, hsec, hch]

/-- Witness for C10 on the query "chapter4" (no whitespace before the
digits). -/
theorem parse_chapter_without_whitespace_witness :
    parse_metadata_query "chapter4" = some (QueryFilter.chapter 4) :=
  parse_chapter_without_whitespace "chapter4" [] ['4'] []
    (by decide) (by decide) (by decide)
    (fun d hd => Option.noConfusion hd)
    (by decide)
    (fun p hp => absurd hp (Nat.not_lt_zero p))

/-! ## Hybrid retrieval (src/retriever.py, HybridRetriever)

The external collaborators — the ChromaDB collection and the OpenAI
embedding function — are modelled as data: a corpus of
`(document, metadata)` records and a deterministic embedding function.
Python floats are modelled as `ℚ`; the store's own query metric
(ChromaDB's default, squared L2) is `storeDist`, and none of the claims
below depends on that choice. -/

/-- Metadata of an indexed chunk as seen by the structural filter: the
`'section'` and `'chapter'` keys (an absent key is `none`); the Python
dict key `'section'` is called `sec` here. -/
structure ChunkMeta where
  sec : Option String
  chapter : Option Nat
deriving DecidableEq

/-- A retrieval candidate dict (`{'text', 'metadata', 'score'}`): the
score is the distance-like quantity (lower = more relevant). -/
structure Cand where
  text : String
  metadata : ChunkMeta
  score : ℚ
deriving DecidableEq

instance : Inhabited Cand := ⟨⟨"", ⟨none, none⟩, 0⟩⟩

/-- The retriever's environment: the indexed corpus (documents with
metadata) and the deterministic embedding provider. -/
structure Retriever where
  corpus : List (String × ChunkMeta)
  embed : String → List ℚ

/-- Model of `np.dot` over equal-length vectors. -/
def dotQ (v w : List ℚ) : ℚ := ((v.zip w).map fun p => p.1 * p.2).sum

/-- The vector store's own distance for `collection.query` (squared
L2). -/
def storeDist (v w : List ℚ) : ℚ :=
  (((v.zip w).map fun p => p.1 - p.2).map fun d => d * d).sum

/-- Python `text.lower().split()`: lower-cased whitespace-delimited
words, as a set (runs of whitespace produce no empty words). -/
def wordSet (s : String) : Finset String :=
  (((pyLower s).split Char.isWhitespace).filter (fun w => w ≠ "")).toFinset

/-- Function `_text_similarity` (lines 185-198): Jaccard similarity of the two
word sets; 0 when either set is empty (and the guarded division by the
union's size mirrors the source's `if union else 0.0`). -/
def text_similarity (text1 text2 : String) : ℚ :=
  let words1 := wordSet text1
  let words2 := wordSet text2
  if words1 = ∅ ∨ words2 = ∅ then 0
  else
    let intersection := words1 ∩ words2
    let union := words1 ∪ words2
    if union ≠ ∅ then (intersection.card : ℚ) / (union.card : ℚ) else 0

/-- Model of `np.max` of a list of scores (call sites guarantee nonemptiness;
`0` for `[]`). -/
def listMax : List ℚ → ℚ
  | [] => 0
  | [x] => x
  | x :: y :: rest => max x (listMax (y :: rest))

/-- Model of `np.argmax`: index of the **first** occurrence of the maximum
(`0` for `[]`). -/
def argmaxIdx : List ℚ → Nat
  | [] => 0
  | [_] => 0
  | x :: y :: rest => if listMax (y :: rest) ≤ x then 0 else argmaxIdx (y :: rest) + 1

/-- One iteration's MMR scores (lines 158-176): for each remaining
candidate, `relevance = 1 - score` and `diversity = 1 - max(similarity
to each selected chunk)` (1.0 when nothing is selected), combined as
`lambda_param * relevance + (1 - lambda_param) * diversity`. -/
def mmrScores (lambda_param : ℚ) (selected remaining : List Cand) : List ℚ :=
  remaining.map fun chunk =>
    let relevance := 1 - chunk.score
    let diversity : ℚ :=
      if selected ≠ [] then
        1 - listMax (selected.map fun selected_chunk =>
          text_similarity chunk.text selected_chunk.text)
      else 1
    lambda_param * relevance + (1 - lambda_param) * diversity

/-- Lemma: `argmaxIdx` returns a valid index of a nonempty list. -/
theorem argmaxIdx_lt_length (l : List ℚ) (h : l ≠ []) : argmaxIdx l < l.length := by
  induction l with
  | nil => exact absurd rfl h
  | cons x xs ih =>
    cases xs with
    | nil => simp [argmaxIdx]
    | cons y rest =>
      by_cases hle : listMax (y :: rest) ≤ x
      · simp [argmaxIdx, hle]
      · simp only [argmaxIdx, if_neg hle, List.length_cons]
        exact Nat.succ_lt_succ (ih (by simp))

/-- The greedy selection loop of `_mmr_diversity` (lines 157-181):
while fewer than `top_k` are selected and candidates remain, move the
candidate with the first maximal MMR score from `remaining` to
`selected`.  Each iteration removes one candidate, so the loop
terminates. -/
def mmrLoop (top_k : Nat) (lambda_param : ℚ) (selected remaining : List Cand) :
    List Cand :=
  if h : selected.length < top_k ∧ remaining ≠ [] then
    let best_idx := argmaxIdx (mmrScores lambda_param selected remaining)
    mmrLoop top_k lambda_param
      (selected ++ [remaining.getD best_idx default])
      (remaining.eraseIdx best_idx)
  else selected
termination_by remaining.length
decreasing_by
  have hlen : (mmrScores lambda_param selected remaining).length = remaining.length :=
    List.length_map _ _
  have hb : argmaxIdx (mmrScores lambda_param selected remaining) < remaining.length := by
    rw [← hlen]
    exact argmaxIdx_lt_length _ (by simp [mmrScores, h.2])
  rw [List.length_eraseIdx, if_pos hb]
  omega

/-- Function `_mmr_diversity` (lines 141-183); the source's default
`lambda_param = 0.5` is passed explicitly by the call sites below.
Returns the input unchanged when it has at most `top_k` elements, else
seeds the selection with the best-scoring (first) candidate and runs
the greedy loop; the `[]` match arm is unreachable (an empty list has
length `0 ≤ top_k`). -/
def mmr_diversity (chunks : List Cand) (top_k : Nat) (lambda_param : ℚ) :
    List Cand :=
  if chunks.length ≤ top_k then chunks
  else
    match chunks with
    | [] => []
    | c :: rest => mmrLoop top_k lambda_param [c] rest

/-- The metadata-filter predicate of `_metadata_filtered_search`
(lines 75-81): every key of the filter must be present in the chunk's
metadata with an equal value. -/
def matchesFilter (f : QueryFilter) (m : ChunkMeta) : Bool :=
  match f with
  | .sec v => m.sec = some v
  | .chapter n => m.chapter = some n

/-- Function `_rank_by_similarity` (lines 96-114): score each chunk as
`1 - dot(query_vec, chunk_vec)`, sort ascending by score (Python's
stable in-place sort), then apply MMR with `lambda_param = 0.5`. -/
def rank_by_similarity (R : Retriever) (query : String) (chunks : List Cand)
    (top_k : Nat) : List Cand :=
  let query_embedding := R.embed query
  let scored := chunks.map fun chunk =>
    { chunk with score := 1 - dotQ query_embedding (R.embed chunk.text) }
  mmr_diversity (scored.mergeSort (fun a b => a.score ≤ b.score)) top_k (1/2)

/-- The candidate pull of `_direct_similarity_search` (lines 121-136):
`collection.query` returns the `min(top_k * 2, 10)` nearest records by
the store's own metric, with their distances as scores. -/
def direct_candidates (R : Retriever) (query : String) (top_k : Nat) : List Cand :=
  let query_embedding := R.embed query
  ((R.corpus.map fun tm =>
      ({ text := tm.1, metadata := tm.2,
         score := storeDist query_embedding (R.embed tm.1) } : Cand)).mergeSort
    (fun a b => a.score ≤ b.score)).take (min (top_k * 2) 10)

/-- Function `_direct_similarity_search` (lines 116-139). -/
def direct_similarity_search (R : Retriever) (query : String) (top_k : Nat) :
    List Cand :=
  mmr_diversity (direct_candidates R query top_k) top_k (1/2)

/-- Function `_metadata_filtered_search` (lines 66-94): filter the whole corpus
by the structural filter; fall back to the direct search when nothing
matches, else rank the filtered set by similarity. -/
def metadata_filtered_search (R : Retriever) (query : String) (f : QueryFilter)
    (top_k : Nat) : List Cand :=
  let filtered_chunks := (R.corpus.filter fun tm => matchesFilter f tm.2).map
    fun tm => ({ text := tm.1, metadata := tm.2, score := 0 } : Cand)
  if filtered_chunks = [] then direct_similarity_search R query top_k
  else rank_by_similarity R query filtered_chunks top_k

/-- Method `search` (lines 28-45): parse the query's structural intent and
dispatch. -/
def search (R : Retriever) (query : String) (top_k : Nat) : List Cand :=
  match parse_metadata_query query with
  | some metadata_filter => metadata_filtered_search R query metadata_filter top_k
  | none => direct_similarity_search R query top_k

/-- C9: `search` degrades instead of failing — on an empty corpus it
returns the empty list for every query and every `top_k` (both the
filtered and the unfiltered path), and when a structural filter
matches no chunks the filter step itself signals emptiness and `search`
falls back to the unfiltered semantic search over the whole corpus. -/
theorem search_empty_and_fallback (R : Retriever) (query : String) (top_k : Nat) :
    (R.corpus = [] → search R query top_k = []) ∧
      (∀ f, parse_metadata_query query = some f →
        (R.corpus.filter fun tm => matchesFilter f tm.2) = [] →
        search R query top_k = direct_similarity_search R query top_k) := by
  constructor
  · intro hc
    have hd : direct_similarity_search R query top_k = [] := by
      simp [direct_similarity_search, direct_candidates, hc, mmr_diversity]
    cases hp : parse_metadata_query query with
    | none => simp [search, hp, hd]
    | some f => simp [search, hp, metadata_filtered_search, hc, hd]
  · intro f hp hf
    simp [search, hp, metadata_filtered_search, hf]

/-- A small two-document corpus with sections 2.1 and 2.2, used by the
concrete instantiations below. -/
def demoRetriever : Retriever :=
  { corpus := [("alpha one", { sec := some "2.1", chapter := some 2 }),
               ("beta two", { sec := some "2.2", chapter := some 2 })],
    embed := fun _ => [1] }

/-- The empty-corpus retriever. -/
def emptyRetriever : Retriever := { corpus := [], embed := fun _ => [1] }

/-- Witness for C9: the empty corpus yields `[]`, and a section filter
(`"9.9"`) matching nothing falls back to the direct search. -/
theorem search_empty_and_fallback_witness :
    search emptyRetriever "anything" 3 = [] ∧
      search demoRetriever "what is section 9.9 about" 2
        = direct_similarity_search demoRetriever "what is section 9.9 about" 2 :=
  ⟨(search_empty_and_fallback emptyRetriever "anything" 3).1 rfl,
    (search_empty_and_fallback demoRetriever "what is section 9.9 about" 2).2
      (QueryFilter.sec "9.9") (by decide) (by decide)⟩

/-- Each loop iteration moves exactly one candidate, so the loop output
has `min top_k (selected + remaining)` elements (when the seed does not
already exceed `top_k`). -/
theorem mmrLoop_length (top_k : Nat) (lam : ℚ) :
    ∀ (n : Nat) (remaining selected : List Cand), remaining.length = n →
      selected.length ≤ top_k →
      (mmrLoop top_k lam selected remaining).length
        = min top_k (selected.length + remaining.length) := by
  intro n
  induction n with
  | zero =>
    intro remaining selected hn hsel
    obtain rfl : remaining = [] := List.length_eq_zero.mp hn
    rw [mmrLoop]
    simp
    omega
  | succ k ih =>
    intro remaining selected hn hsel
    have hrne : remaining ≠ [] := by
      intro hr; rw [hr] at hn; simp at hn
    rw [mmrLoop]
    by_cases hcond : selected.length < top_k ∧ remaining ≠ []
    · rw [dif_pos hcond]
      have hlenms : (mmrScores lam selected remaining).length = remaining.length :=
        List.length_map _ _
      have hb : argmaxIdx (mmrScores lam selected remaining) < remaining.length := by
        rw [← hlenms]
        exact argmaxIdx_lt_length _ (by simp [mmrScores, hrne])
      have herase : (remaining.eraseIdx
          (argmaxIdx (mmrScores lam selected remaining))).length = k := by
        rw [List.length_eraseIdx, if_pos hb]
        omega
      rw [ih _ _ herase (by simp; omega)]
      simp only [List.length_append, List.length_cons, List.length_nil, herase]
      omega
    · rw [dif_neg hcond]
      have hsel' : top_k ≤ selected.length := by
        rcases not_and_or.mp hcond with h | h
        · omega
        · exact absurd hrne h
      have : selected.length = top_k := le_antisymm hsel hsel'
      rw [this]
      omega

/-- Lemma: `_mmr_diversity` returns `min (len chunks) top_k` results whenever
`top_k ≥ 1`. -/
theorem mmr_diversity_length (chunks : List Cand) (top_k : Nat) (lam : ℚ)
    (hk : 1 ≤ top_k) :
    (mmr_diversity chunks top_k lam).length = min chunks.length top_k := by
  unfold mmr_diversity
  by_cases hle : chunks.length ≤ top_k
  · rw [if_pos hle]
    omega
  · rw [if_neg hle]
    cases chunks with
    | nil => simp at hle
    | cons c rest =>
      rw [mmrLoop_length top_k lam rest.length rest [c] rfl (by simp; omega)]
      have h1 : ([c] : List Cand).length = 1 := rfl
      have h2 : (c :: rest).length = rest.length + 1 := rfl
      rw [h1, h2]
      omega

/-- The 12-document corpus used to refute C1 as stated. -/
def corpus12 : Retriever :=
  { corpus := [("d0", ⟨none, none⟩), ("d1", ⟨none, none⟩), ("d2", ⟨none, none⟩),
               ("d3", ⟨none, none⟩), ("d4", ⟨none, none⟩), ("d5", ⟨none, none⟩),
               ("d6", ⟨none, none⟩), ("d7", ⟨none, none⟩), ("d8", ⟨none, none⟩),
               ("d9", ⟨none, none⟩), ("dA", ⟨none, none⟩), ("dB", ⟨none, none⟩)],
    embed := fun _ => [1] }

/-- C1, counterexample: `_direct_similarity_search` requests only
`min(top_k * 2, 10)` candidates — a hard cap of 10 — so on a 12-chunk
corpus a plain query with `top_k = 11` returns 10 results, fewer than
`top_k`, even though the corpus has at least `top_k` items; the ranking
stage retained 10 < min(2·11, 12) candidates. -/
theorem search_cap_cex :
    (search corpus12 "hello" 11).length = 10 ∧
      (search corpus12 "hello" 11).length < 11 ∧
      11 ≤ corpus12.corpus.length ∧
      (direct_candidates corpus12 "hello" 11).length
        < min (11 * 2) corpus12.corpus.length := by
  have hq : parse_metadata_query "hello" = none := by decide
  have hcand : (direct_candidates corpus12 "hello" 11).length = 10 := by
    simp [direct_candidates, corpus12]
  have hsearch : (search corpus12 "hello" 11).length = 10 := by
    simp only [search, hq, direct_similarity_search]
    rw [mmr_diversity_length _ _ _ (by norm_num), hcand]
    decide
  refine ⟨hsearch, by rw [hsearch]; norm_num, by decide, ?_⟩
  rw [hcand]
  decide

/-- C1, amended: on the unfiltered path (no structural filter parsed)
with `top_k ≥ 1`, the similarity-ranking stage retains exactly
`min(min(2*top_k, 10), corpus_size)` candidates — the source caps the
pull at 10, not at `2*top_k` — and `search` returns exactly
`min(top_k, min(min(2*top_k, 10), corpus_size))` results; so a result
can be smaller than `top_k` exactly when the corpus is smaller than
`top_k` or `top_k` exceeds the cap 10.  (A filtered query can also
return fewer: it ranks only the matching subset.) -/
theorem search_unfiltered_result_count (R : Retriever) (query : String)
    (top_k : Nat) (hq : parse_metadata_query query = none) (hk : 1 ≤ top_k) :
    (direct_candidates R query top_k).length
        = min (min (top_k * 2) 10) R.corpus.length ∧
      (search R query top_k).length
        = min top_k (min (min (top_k * 2) 10) R.corpus.length) := by
  have hcand : (direct_candidates R query top_k).length
      = min (min (top_k * 2) 10) R.corpus.length := by
    simp [direct_candidates, List.length_take, List.length_mergeSort,
      List.length_map]
  refine ⟨hcand, ?_⟩
  simp only [search, hq, direct_similarity_search]
  rw [mmr_diversity_length _ _ _ hk, hcand]
  omega

/-- Witness for the amended C1: `top_k = 3` on the 12-document corpus
returns exactly 3 results from a 6-candidate pull. -/
theorem search_unfiltered_result_count_witness :
    (direct_candidates corpus12 "hello" 3).length
        = min (min (3 * 2) 10) corpus12.corpus.length ∧
      (search corpus12 "hello" 3).length
        = min 3 (min (min (3 * 2) 10) corpus12.corpus.length) :=
  search_unfiltered_result_count corpus12 "hello" 3 (by decide) (by decide)

/-- An upper bound for all elements bounds `listMax` on nonempty
lists. -/
theorem listMax_le (l : List ℚ) (b : ℚ) (hne : l ≠ []) (h : ∀ y ∈ l, y ≤ b) :
    listMax l ≤ b := by
  induction l with
  | nil => exact absurd rfl hne
  | cons x xs ih =>
    cases xs with
    | nil => simpa [listMax] using h x (by simp)
    | cons y rest =>
      rw [show listMax (x :: y :: rest) = max x (listMax (y :: rest)) from rfl]
      exact max_le (h x (by simp)) (ih (by simp) (fun z hz => h z (by simp [hz])))

/-- When the head dominates the tail, `np.argmax` picks index 0. -/
theorem argmaxIdx_eq_zero (x : ℚ) (xs : List ℚ) (h : ∀ y ∈ xs, y ≤ x) :
    argmaxIdx (x :: xs) = 0 := by
  cases xs with
  | nil => rfl
  | cons y rest =>
    have hle : listMax (y :: rest) ≤ x :=
      listMax_le (y :: rest) x (by simp) h
    simp [argmaxIdx, hle]

/-- Lemma: `np.argmax` attains the maximum. -/
theorem argmaxIdx_getD (l : List ℚ) (h : l ≠ []) :
    l.getD (argmaxIdx l) 0 = listMax l := by
  induction l with
  | nil => exact absurd rfl h
  | cons x xs ih =>
    cases xs with
    | nil => simp [argmaxIdx, listMax]
    | cons y rest =>
      by_cases hle : listMax (y :: rest) ≤ x
      · rw [show argmaxIdx (x :: y :: rest)
            = if listMax (y :: rest) ≤ x then 0 else argmaxIdx (y :: rest) + 1
            from rfl, if_pos hle]
        rw [List.getD_cons_zero]
        rw [show listMax (x :: y :: rest) = max x (listMax (y :: rest)) from rfl]
        exact (max_eq_left hle).symm
      · rw [show argmaxIdx (x :: y :: rest)
            = if listMax (y :: rest) ≤ x then 0 else argmaxIdx (y :: rest) + 1
            from rfl, if_neg hle]
        rw [List.getD_cons_succ, ih (by simp)]
        rw [show listMax (x :: y :: rest) = max x (listMax (y :: rest)) from rfl]
        exact (max_eq_right (le_of_not_le hle)).symm

/-- Every index strictly before `np.argmax` holds a strictly smaller
value: ties are broken in favour of the earliest maximiser. -/
theorem argmaxIdx_earlier_lt (l : List ℚ) :
    ∀ j, j < argmaxIdx l → l.getD j 0 < listMax l := by
  induction l with
  | nil => intro j hj; simp [argmaxIdx] at hj
  | cons x xs ih =>
    cases xs with
    | nil => intro j hj; simp [argmaxIdx] at hj
    | cons y rest =>
      intro j hj
      by_cases hle : listMax (y :: rest) ≤ x
      · rw [show argmaxIdx (x :: y :: rest)
            = if listMax (y :: rest) ≤ x then 0 else argmaxIdx (y :: rest) + 1
            from rfl, if_pos hle] at hj
        exact absurd hj (by omega)
      · rw [show argmaxIdx (x :: y :: rest)
            = if listMax (y :: rest) ≤ x then 0 else argmaxIdx (y :: rest) + 1
            from rfl, if_neg hle] at hj
        have hxlt : x < listMax (y :: rest) := lt_of_not_le hle
        rw [show listMax (x :: y :: rest) = max x (listMax (y :: rest)) from rfl,
          max_eq_right (le_of_lt hxlt)]
        cases j with
        | zero => simpa using hxlt
        | succ j' =>
          rw [List.getD_cons_succ]
          exact ih j' (Nat.lt_of_succ_lt_succ hj)

/-- With `lambda_param = 1` the MMR score degenerates to pure
relevance: `1 * (1 - score) + 0 * diversity = 1 - score`, exactly. -/
theorem mmrScores_lambda_one (selected remaining : List Cand) :
    mmrScores 1 selected remaining = remaining.map (fun c => 1 - c.score) := by
  simp [mmrScores]

/-- With `lambda_param = 1` the loop always takes the head of the
(score-ascending) remaining list: pure ascending-score selection. -/
theorem mmrLoop_lambda_one (top_k : Nat) :
    ∀ (remaining selected : List Cand),
      List.Pairwise (fun a b => a.score ≤ b.score) remaining →
      mmrLoop top_k 1 selected remaining
        = selected ++ remaining.take (top_k - selected.length) := by
  intro remaining
  induction remaining with
  | nil => intro sel _; rw [mmrLoop]; simp
  | cons r rs ih =>
    intro sel hp
    rw [mmrLoop]
    by_cases hcond : sel.length < top_k ∧ (r :: rs) ≠ []
    · rw [dif_pos hcond]
      have hmax0 : argmaxIdx (mmrScores 1 sel (r :: rs)) = 0 := by
        rw [mmrScores_lambda_one]
        simp only [List.map_cons]
        apply argmaxIdx_eq_zero
        intro v hv
        simp only [List.mem_map] at hv
        obtain ⟨c, hc, rfl⟩ := hv
        have : r.score ≤ c.score := (List.pairwise_cons.mp hp).1 c hc
        linarith
      rw [hmax0]
      simp only [List.getD_cons_zero, List.eraseIdx_cons_zero]
      rw [ih (sel ++ [r]) (List.Pairwise.of_cons hp)]
      rw [List.append_assoc]
      congr 1
      rw [show top_k - sel.length = (top_k - (sel.length + 1)) + 1 by omega]
      simp [List.take_succ_cons]
    · rw [dif_neg hcond]
      have hge : top_k ≤ sel.length := by
        rcases not_and_or.mp hcond with h | h
        · omega
        · exact absurd (by simp) h
      rw [Nat.sub_eq_zero_of_le hge]
      simp

/-- C8: with `lambda_param = 1` the MMR selector returns the first
`top_k` candidates of any score-ascending list (diversity is ignored);
and for every `lambda_param` and every iteration state, `np.argmax`
over the MMR scores attains the maximum while every strictly earlier
candidate scores strictly below it — so a tie among maximisers is
broken in favour of the earlier (more relevant) candidate. -/
theorem mmr_lambda_one_and_tie_break :
    (∀ (chunks : List Cand) (top_k : Nat), 1 ≤ top_k →
        List.Pairwise (fun a b => a.score ≤ b.score) chunks →
        mmr_diversity chunks top_k 1 = chunks.take top_k) ∧
      (∀ (lam : ℚ) (selected remaining : List Cand), remaining ≠ [] →
        (mmrScores lam selected remaining).getD
            (argmaxIdx (mmrScores lam selected remaining)) 0
          = listMax (mmrScores lam selected remaining) ∧
        ∀ j, j < argmaxIdx (mmrScores lam selected remaining) →
          (mmrScores lam selected remaining).getD j 0
            < listMax (mmrScores lam selected remaining)) := by
  constructor
  · intro chunks top_k hk hp
    unfold mmr_diversity
    by_cases hle : chunks.length ≤ top_k
    · rw [if_pos hle, List.take_of_length_le hle]
    · rw [if_neg hle]
      cases chunks with
      | nil => simp at hle
      | cons c rest =>
        show mmrLoop top_k 1 [c] rest = List.take top_k (c :: rest)
        rw [mmrLoop_lambda_one top_k rest [c] (List.Pairwise.of_cons hp)]
        obtain ⟨k', rfl⟩ : ∃ k', top_k = k' + 1 := ⟨top_k - 1, by omega⟩
        simp [List.take_succ_cons]
  · intro lam selected remaining hne
    have hmsne : mmrScores lam selected remaining ≠ [] := by
      simp [mmrScores, hne]
    exact ⟨argmaxIdx_getD _ hmsne, argmaxIdx_earlier_lt _⟩

/-- Two concrete candidates with ascending scores. -/
def candA : Cand := ⟨"alpha beta", ⟨none, none⟩, 1/10⟩

/-- The second concrete candidate. -/
def candB : Cand := ⟨"gamma delta", ⟨none, none⟩, 1/2⟩

/-- Witness for C8 at `chunks = [candA, candB]`, `top_k = 1`,
`lambda_param = 1` for the first part and `lambda_param = 1/2`,
`selected = [candA]`, `remaining = [candB]` for the second. -/
theorem mmr_lambda_one_and_tie_break_witness :
    mmr_diversity [candA, candB] 1 1 = [candA, candB].take 1 ∧
      (mmrScores (1/2) [candA] [candB]).getD
          (argmaxIdx (mmrScores (1/2) [candA] [candB])) 0
        = listMax (mmrScores (1/2) [candA] [candB]) :=
  ⟨mmr_lambda_one_and_tie_break.1 [candA, candB] 1 (by norm_num)
      (by simp [candA, candB]; norm_num),
    (mmr_lambda_one_and_tie_break.2 (1/2) [candA] [candB] (by simp)).1⟩
